import Mathlib

/-!
Verification development for the Guardian control loop of the ServerlessContainers
framework (`src/Guardian/Guardian.py`) and its CouchDB store facade
(`StateDatabase/couchDB.py`).

The Python code is shallowly embedded: dictionaries of integer-valued resource and
limit documents become records of integers (`current` is optional, since the source
explicitly tolerates a not-yet-persisted current value and every other access would
raise), Python floats occurring in the amount pipeline (time-series usages, rule
amounts) are modelled as rationals, `int(...)` truncation toward zero is `pyInt`,
and exceptions become `Except`/`Option` results.  `time.time()` is modelled as an
ambient clock, one value per call site occurrence.  A per-rule `try/except KeyError`
block that leaves earlier mutations in place is modelled by returning the
partially-updated accumulator at the point where the lookup fails.
-/

/-- A finite string-keyed map, as used for the per-resource dictionaries. -/
def updMap {α : Type} (m : String → Option α) (k : String) (v : α) : String → Option α :=
  fun s => if s = k then some v else m s

/-! ## Store facade: `CouchDBServer.__resilient_update_doc`

The HTTP layer is abstracted as a trace `resp : ℕ → DbResp` giving the status of the
`k`-th POST made by this call, and `fetchRev : ℕ → ℕ` giving the revision returned by
the `_find` refetch performed after the `k`-th POST.  The function's state carries the
`previous_tries` counter, the number of POSTs made, the total seconds slept (the
`time_backoff_seconds=2` default is never changed by the recursive call in the source)
and the document's current `_rev`.  Recursion is fuel-bounded because the source can
genuinely recurse forever; `none` means the fuel ran out with the call still retrying. -/

/-- Status of one POST to the store: 200, 409 (version conflict), 404 (database
missing), or any other error status. -/
inductive DbResp where
  | ok
  | conflict
  | missing
  | other
deriving DecidableEq

/-- Embedding of `CouchDBServer.__resilient_update_doc`.  Returns
`some (success?, posts_made, seconds_slept, final_rev)`, where `success? = false`
means `raise_for_status` was reached, or `none` if `fuel` recursions did not finish. -/
def resilient_update_doc (resp : ℕ → DbResp) (fetchRev : ℕ → ℕ) :
    ℕ → ℕ → ℕ → ℕ → ℕ → Option (Bool × ℕ × ℕ × ℕ)
  | _, _, _, _, 0 => none
  | tries, posts, slept, rev, fuel + 1 =>
    match resp posts with
    | .ok => some (true, posts + 1, slept, rev)
    | .conflict =>
      if tries < 5 then
        resilient_update_doc resp fetchRev (tries + 1) (posts + 1) slept (fetchRev (posts + 1)) fuel
      else
        some (false, posts + 1, slept, rev)
    | .missing =>
      resilient_update_doc resp fetchRev (tries + 1) (posts + 1) (slept + 2) rev fuel
    | .other => some (false, posts + 1, slept, rev)

/-! ## Guardian data model -/

/-- One resource entry of a structure document: integer `min`/`max`, an optional
`current` (absent, or not an integer, in which case every `try_get_value` access
yields the N/A marker), the `usage` field used by the energy policy, and the
per-resource guard flag. -/
structure ResourceRec where
  min : ℤ
  max : ℤ
  current : Option ℤ
  usage : Option ℤ
  guard : Bool
deriving DecidableEq

/-- One resource entry of a limits document. -/
structure LimitRec where
  lower : ℤ
  upper : ℤ
  boundary : ℤ
deriving DecidableEq

/-- Resource table of a structure document. -/
abbrev RMap := String → Option ResourceRec

/-- Resource table of a limits document. -/
abbrev LMap := String → Option LimitRec

/-! ## `Guardian.check_invalid_container_state` and `Guardian.adjust_container_state` -/

/-- The exceptions `adjust_container_state` can let escape: the two
"values not available" `RuntimeError`s, the current-above-max `RuntimeError` raised by
`check_invalid_values`, the `RuntimeError("Error fixing limits")` raised when the
repair loop counter reaches 10, and an uncaught crash (`KeyError`/`TypeError`) from
the repair statements themselves when `current` is unavailable. -/
inductive AdjustErr where
  | missingResource
  | missingLimit
  | currentAboveMax
  | unfixable
  | crash
deriving DecidableEq

/-- Result of one call to `check_invalid_container_state`: it returns normally,
raises `ValueError` (repairable), or raises `RuntimeError` (fatal). -/
inductive CheckOutcome where
  | ok
  | valueErr
  | runtimeErr (e : AdjustErr)
deriving DecidableEq

/-- Embedding of `Guardian.check_invalid_container_state`.  Mirrors the source order:
membership of the resource in both maps (RuntimeError), the unset-value scan (only
`current` can be unavailable in this model; ValueError), `current ≤ max`
(RuntimeError), `upper ≤ current`, `lower ≤ upper` (ValueError), and the exact
boundary gap `current - boundary = upper` (ValueError on both sides). -/
def check_invalid_container_state (resources : RMap) (limits : LMap) (res : String) :
    CheckOutcome :=
  match resources res with
  | none => .runtimeErr .missingResource
  | some rr =>
    match limits res with
    | none => .runtimeErr .missingLimit
    | some lr =>
      match rr.current with
      | none => .valueErr
      | some c =>
        if c > rr.max then .runtimeErr .currentAboveMax
        else if lr.upper > c then .valueErr
        else if lr.lower > lr.upper then .valueErr
        else if c - lr.boundary < lr.upper then .valueErr
        else if c - lr.boundary > lr.upper then .valueErr
        else .ok

/-- The repair assignments of the `except ValueError` branch:
`upper := current - boundary; lower := upper - boundary`.  `none` when a lookup the
source performs there would raise an uncaught exception (`limits[resource]` missing,
or `current` unavailable). -/
def repairStep (resources : RMap) (limits : LMap) (res : String) : Option LMap :=
  match limits res, (resources res).bind (fun rr => rr.current) with
  | some lr, some c =>
    some (updMap limits res ⟨c - lr.boundary - lr.boundary, c - lr.boundary, lr.boundary⟩)
  | _, _ => none

/-- The `while errors and n_loop < 10` body of `adjust_container_state` for one
resource.  `fuel` is `10 - n_loop`, so the while condition `n_loop < 10` is `fuel > 0`;
the explicit `if n_loop >= 10: raise RuntimeError("Error fixing limits")` after the
increment is kept as written, in both the successful-check and the repaired branch. -/
def adjustLoopGo (resources : RMap) (res : String) : ℕ → ℕ → LMap → Except AdjustErr LMap
  | 0, _, limits => .ok limits
  | fuel + 1, n, limits =>
    match check_invalid_container_state resources limits res with
    | .runtimeErr e => .error e
    | .ok => if n + 1 ≥ 10 then .error .unfixable else .ok limits
    | .valueErr =>
      match repairStep resources limits res with
      | none => .error .crash
      | some limits1 =>
        if n + 1 ≥ 10 then .error .unfixable else adjustLoopGo resources res fuel (n + 1) limits1

/-- The per-resource validate/repair loop of `adjust_container_state`, started with
`n_loop = 0` and at most 10 iterations. -/
def adjustSingleResource (resources : RMap) (limits : LMap) (res : String) :
    Except AdjustErr LMap :=
  adjustLoopGo resources res 10 0 limits

/-- Embedding of `Guardian.adjust_container_state`.  The source mutates `limits` in
place while iterating the listed resources and returns it; here the final
`(resources, limits)` pair is returned so that the function's frame can be stated
(`resources` is threaded unchanged: no statement of the source assigns to it). -/
def adjust_container_state (resources : RMap) (limits : LMap)
    (resources_to_adjust : List String) : Except AdjustErr (RMap × LMap) :=
  match resources_to_adjust with
  | [] => .ok (resources, limits)
  | res :: rest =>
    match adjustSingleResource resources limits res with
    | .error e => .error e
    | .ok limits1 => adjust_container_state resources limits1 rest

/-- Iterated repair: the limits state after `i` executions of the repair branch. -/
def repairIter (resources : RMap) (res : String) : ℕ → LMap → Option LMap
  | 0, limits => some limits
  | i + 1, limits => (repairIter resources res i limits).bind fun l => repairStep resources l res

/-! ## `Guardian.sort_events` and `Guardian.reduce_structure_events` -/

/-- An event document.  The `action.events.scale` dictionary holds an `up` and/or a
`down` counter; a key the event does not carry is `none`. -/
structure EventDoc where
  name : String
  resource : String
  structureName : String
  timestamp : ℤ
  scaleUp : Option ℤ
  scaleDown : Option ℤ
deriving DecidableEq

/-- Loop of `Guardian.sort_events`: the source calls `time.time()` freshly in every
iteration of the `for` loop, so the comparison for the event at position `i` uses
`clock i`. -/
def sortEventsGo (clock : ℕ → ℚ) (event_timeout : ℤ) :
    ℕ → List EventDoc → List EventDoc × List EventDoc
  | _, [] => ([], [])
  | i, e :: es =>
    let rest := sortEventsGo clock event_timeout (i + 1) es
    if (e.timestamp : ℚ) < clock i - (event_timeout : ℚ) then (rest.1, e :: rest.2)
    else (e :: rest.1, rest.2)

/-- Embedding of `Guardian.sort_events`: returns `(valid, invalid)` in input order,
where the event processed in iteration `i` is compared against `clock i`. -/
def sort_events (clock : ℕ → ℚ) (structure_events : List EventDoc) (event_timeout : ℤ) :
    List EventDoc × List EventDoc :=
  sortEventsGo clock event_timeout 0 structure_events

/-- The reduced per-resource event counters `{"events": {"scale": {"down": d, "up": u}}}`. -/
structure ReducedRec where
  up : ℤ
  down : ℤ
deriving DecidableEq

/-- One iteration of the `reduce_structure_events` loop: initialise the resource's
accumulator entry to zeros if absent, then add whichever of the event's `scale` keys
are present. -/
def reduceStep (acc : String → Option ReducedRec) (e : EventDoc) : String → Option ReducedRec :=
  let base := (acc e.resource).getD ⟨0, 0⟩
  let withUp : ReducedRec :=
    match e.scaleUp with
    | none => base
    | some v => ⟨base.up + v, base.down⟩
  let withBoth : ReducedRec :=
    match e.scaleDown with
    | none => withUp
    | some v => ⟨withUp.up, withUp.down + v⟩
  updMap acc e.resource withBoth

/-- Embedding of `Guardian.reduce_structure_events`. -/
def reduce_structure_events (structure_events : List EventDoc) : String → Option ReducedRec :=
  structure_events.foldl reduceStep (fun _ => none)

/-- Componentwise sum of two optional counter records, a resource absent from one
side counting as `{up := 0, down := 0}`; absent from both sides stays absent. -/
def addRed (a b : Option ReducedRec) : Option ReducedRec :=
  match a, b with
  | none, none => none
  | _, _ =>
    some ⟨(a.getD ⟨0, 0⟩).up + (b.getD ⟨0, 0⟩).up, (a.getD ⟨0, 0⟩).down + (b.getD ⟨0, 0⟩).down⟩

/-! ## The amount pipeline and `Guardian.match_rules_and_events` -/

/-- Python `int(...)` on a real number: truncation toward zero. -/
def pyInt (q : ℚ) : ℤ :=
  if q < 0 then ⌈q⌉ else ⌊q⌋

/-- `NON_ADJUSTABLE_RESOURCES` from the source. -/
def NON_ADJUSTABLE_RESOURCES : List String := ["energy"]

/-- `translator_dict` from the source; an unknown resource label raises `KeyError`. -/
def translator_dict (res : String) : Option String :=
  if res = "cpu" then some "structure.cpu.usage"
  else if res = "mem" then some "structure.mem.usage"
  else if res = "energy" then some "structure.energy.usage"
  else none

/-- A structure document, restricted to the fields `match_rules_and_events` reads.
The host routing fields are only ever read for containers, where the data model
guarantees them. -/
structure StructureDoc where
  name : String
  subtype : String
  host : String
  host_rescaler_ip : String
  host_rescaler_port : String
  resources : RMap

/-- A rule document.  `rule` is the predicate tree, evaluated by the external
`jsonLogic` library, which the embedding abstracts as a parameter; `amount`,
`rescale_by` and `events_to_remove` are optional keys whose absence raises
`KeyError` at their access site. -/
structure Rule (π : Type) where
  name : String
  active : Bool
  resource : String
  generates : String
  rule : π
  rescale_by : Option String
  amount : Option ℚ
  events_to_remove : Option ℤ

/-- A request document.  `for_energy` is only ever set (to true) on the energy
rewrite path; the host fields are attached only for containers. -/
structure Request where
  resource : String
  amount : ℤ
  structureName : String
  action : String
  timestamp : ℤ
  structure_type : String
  for_energy : Bool
  host : Option String
  host_rescaler_ip : Option String
  host_rescaler_port : Option String
deriving DecidableEq

/-- The `events_to_remove` dictionary accumulated by `match_rules_and_events`. -/
abbrev Tally := String → Option ℤ

/-- Embedding of `Guardian.adjust_amount`.  `none` when `structure_resources` has no
`current` value (the source's dictionary access would raise `KeyError`). -/
def adjust_amount (amount : ℚ) (structure_resources : ResourceRec)
    (structure_limits : LimitRec) : Option ℚ :=
  match structure_resources.current with
  | none => none
  | some cur =>
    let expected_value := (cur : ℚ) + amount
    let lower_limit := (structure_limits.lower : ℚ) + amount
    let min_limit := (structure_resources.min : ℚ)
    let max_limit := (structure_resources.max : ℚ)
    some (if lower_limit < min_limit then amount + (min_limit - lower_limit)
          else if expected_value > max_limit then amount - (expected_value - max_limit)
          else amount)

/-- Embedding of `Guardian.get_amount_from_fit_reduction`:
`-1 * (current - (usage + int(boundary / 2) + boundary))`, where `boundary / 2` is
Python true division and `int` truncates. -/
def get_amount_from_fit_reduction (current_resource_limit : ℤ) (boundary : ℤ)
    (current_resource_usage : ℚ) : ℚ :=
  -1 * ((current_resource_limit : ℚ) -
    (current_resource_usage + (pyInt ((boundary : ℚ) / 2) : ℚ) + (boundary : ℚ)))

/-- Embedding of `Guardian.get_amount_from_proportional_energy_rescaling`:
`int((max - usage) * cpu_shares_per_watt)` over the structure's resource entry;
`none` when the entry or one of its fields is missing (`KeyError`). -/
def get_amount_from_proportional_energy_rescaling (cpu_shares_per_watt : ℤ)
    (resources : RMap) (res : String) : Option ℚ :=
  match resources res with
  | none => none
  | some rr =>
    match rr.usage with
    | none => none
    | some u => some (((rr.max - u) * cpu_shares_per_watt : ℤ) : ℚ)

/-- The policy dispatch of `match_rules_and_events` (lines 479–497 of the source):
default the missing `rescale_by` to `"amount"`, then select the amount by policy.
`none` is a `KeyError` along the way (rule skipped by the surrounding handler). -/
def computeAmountRaw {π : Type} (cpu_shares_per_watt : ℤ) (st : StructureDoc)
    (limits : LMap) (usages : String → Option ℚ) (ru : Rule π) : Option ℚ :=
  let resource_label := ru.resource
  let rescale_by := ru.rescale_by.getD "amount"
  if rescale_by = "amount" then ru.amount
  else if rescale_by = "fit_to_usage" then
    match st.resources resource_label with
    | none => none
    | some rr =>
      match rr.current with
      | none => none
      | some current_resource_limit =>
        match limits resource_label with
        | none => none
        | some lr =>
          match translator_dict resource_label with
          | none => none
          | some metric =>
            match usages metric with
            | none => none
            | some usage => some (get_amount_from_fit_reduction current_resource_limit lr.boundary usage)
  else if rescale_by = "proportional" ∧ resource_label = "energy" then
    get_amount_from_proportional_energy_rescaling cpu_shares_per_watt st.resources resource_label
  else ru.amount

/-- The rounding guard of `match_rules_and_events` (lines 499–505): a nonzero amount
that truncates to 0 is snapped to `±1` preserving its sign. -/
def roundingGuard (amount : ℚ) : ℚ :=
  if pyInt amount = 0 ∧ amount < 0 then -1
  else if pyInt amount = 0 ∧ amount > 0 then 1
  else amount

/-- The clamping step (lines 507–511): skipped for `NON_ADJUSTABLE_RESOURCES`,
otherwise `adjust_amount` on the structure's resource and limit entries; `none` is a
`KeyError` (rule skipped). -/
def applyClamp (st : StructureDoc) (limits : LMap) (resource_label : String)
    (amount : ℚ) : Option ℚ :=
  if resource_label ∈ NON_ADJUSTABLE_RESOURCES then some amount
  else
    match st.resources resource_label with
    | none => none
    | some structure_resources =>
      match limits resource_label with
      | none => none
      | some structure_limits => adjust_amount amount structure_resources structure_limits

/-- Modelled from the spec: `generate_event_name` lives in `src.MyUtils.MyUtils`,
which is not among the sources.  Per §4.6 the name is selected by whichever of the
`scale.up`/`scale.down` counters is nonzero, and per §9 a dictionary in which both
(or neither) are nonzero is a rule-authoring error that fails the rule
(`RuleMalformed`, modelled as `none`: the rule is skipped at this point). -/
def generate_event_name (scale : ReducedRec) (resource : String) : Option String :=
  if scale.up ≠ 0 ∧ scale.down = 0 then some (resource ++ "_scale_up")
  else if scale.down ≠ 0 ∧ scale.up = 0 then some (resource ++ "_scale_down")
  else none

/-- Modelled from the spec: `generate_request_name` lives in `src.MyUtils.MyUtils`,
which is not among the sources.  Per §3 the action name is derived from the
direction of the amount; it is only ever called with a nonzero amount. -/
def generate_request_name (amount : ℚ) (resource : String) : String :=
  if amount > 0 then resource ++ "_rescale_up" else resource ++ "_rescale_down"

/-- Embedding of `Guardian.generate_request`: the base request document, with
`amount` truncated by `int(...)` and the ambient `time.time()` value `now`. -/
def generate_request (now : ℤ) (st : StructureDoc) (amount : ℚ) (resource : String)
    (action : String) : Request :=
  { resource := resource
    amount := pyInt amount
    structureName := st.name
    action := action
    timestamp := now
    structure_type := st.subtype
    for_energy := false
    host := none
    host_rescaler_ip := none
    host_rescaler_port := none }

/-- The request constructed for a fired rule with nonzero final amount: the base
document from `generate_request`, then the energy→cpu rewrite, then the host
routing fields for containers (lines 515–527 of the source). -/
def buildRequest (now : ℤ) (st : StructureDoc) (resource_label : String) (amount : ℚ) : Request :=
  let action := generate_request_name amount resource_label
  let req0 := generate_request now st amount resource_label action
  let req1 :=
    if resource_label = "energy" then
      { req0 with resource := "cpu", for_energy := true }
    else req0
  if st.subtype = "container" then
    { req1 with
      host := some st.host
      host_rescaler_ip := some st.host_rescaler_ip
      host_rescaler_port := some st.host_rescaler_port }
  else req1

/-- Lines 513–530: append the request when the remaining amount is nonzero. -/
def emitRequest (now : ℤ) (st : StructureDoc) (resource_label : String) (amount : ℚ)
    (reqs : List Request) : List Request :=
  if amount ≠ 0 then reqs ++ [buildRequest now st resource_label amount] else reqs

/-- Lines 532–536: record the events to be consumed under the triggering event name.
A missing `events_to_remove` key raises `KeyError` after the zero-initialisation has
already happened; a malformed scale dictionary fails the rule before touching the
tally. -/
def consumeEvents {π : Type} (ev : ReducedRec) (ru : Rule π) (resource_label : String)
    (tally : Tally) : Tally :=
  match generate_event_name ev resource_label with
  | none => tally
  | some event_name =>
    match ru.events_to_remove with
    | none => if (tally event_name).isSome then tally else updMap tally event_name 0
    | some k => updMap tally event_name ((tally event_name).getD 0 + k)

/-- Lines 486–536 of `match_rules_and_events`, for a rule that fired: compute the
amount (policy, rounding guard, clamp), emit the request if the final amount is
nonzero, then record the events to consume.  A `KeyError` in the amount computation
or the clamp skips the rule, leaving the accumulator untouched. -/
def processRuleBody {π : Type} (now : ℤ) (cpu_shares_per_watt : ℤ) (st : StructureDoc)
    (limits : LMap) (usages : String → Option ℚ) (ev : ReducedRec) (ru : Rule π)
    (acc : List Request × Tally) : List Request × Tally :=
  let resource_label := ru.resource
  match computeAmountRaw cpu_shares_per_watt st limits usages ru with
  | none => acc
  | some amount0 =>
    match applyClamp st limits resource_label (roundingGuard amount0) with
    | none => acc
    | some amount =>
      (emitRequest now st resource_label amount acc.1, consumeEvents ev ru resource_label acc.2)

/-- One iteration of the rule loop of `Guardian.match_rules_and_events`: the firing
condition (active, generates requests, resource present in the reduced events,
predicate true on the reduced entry), then the container current-value guard, then
the rule body. -/
def processRule {π : Type} (jl : π → ReducedRec → Bool) (now : ℤ) (cpu_shares_per_watt : ℤ)
    (st : StructureDoc) (limits : LMap) (usages : String → Option ℚ)
    (events : String → Option ReducedRec) (acc : List Request × Tally) (ru : Rule π) :
    List Request × Tally :=
  let resource_label := ru.resource
  if ru.active ∧ ru.generates = "requests" then
    match events resource_label with
    | none => acc
    | some ev =>
      if jl ru.rule ev then
        if st.subtype = "container" then
          match st.resources resource_label with
          | none => acc
          | some rr =>
            match rr.current with
            | none => acc
            | some _ => processRuleBody now cpu_shares_per_watt st limits usages ev ru acc
        else processRuleBody now cpu_shares_per_watt st limits usages ev ru acc
      else acc
  else acc

/-- Embedding of `Guardian.match_rules_and_events`: fold the rule loop over the rule
list, starting from an empty request list and an empty events-to-remove dictionary.
`jl` is the external `jsonLogic` evaluator, `now` the ambient clock, and
`cpu_shares_per_watt` the service configuration value. -/
def match_rules_and_events {π : Type} (jl : π → ReducedRec → Bool) (now : ℤ)
    (cpu_shares_per_watt : ℤ) (st : StructureDoc) (rules : List (Rule π))
    (events : String → Option ReducedRec) (limits : LMap)
    (usages : String → Option ℚ) : List Request × Tally :=
  rules.foldl (processRule jl now cpu_shares_per_watt st limits usages events) ([], fun _ => none)

/-! ## Basic helper lemmas -/

theorem updMap_same {α : Type} (m : String → Option α) (k : String) (v : α) :
    updMap m k v k = some v := by
  simp [updMap]

theorem updMap_other {α : Type} (m : String → Option α) (k : String) (v : α) (s : String)
    (h : s ≠ k) : updMap m k v s = m s := by
  simp [updMap, h]

theorem updMap_idem {α : Type} (m : String → Option α) (k : String) (v : α) :
    updMap (updMap m k v) k v = updMap m k v := by
  funext s
  by_cases h : s = k <;> simp [updMap, h]

theorem pyInt_intCast (n : ℤ) : pyInt ((n : ℚ)) = n := by
  unfold pyInt
  split
  · exact Int.ceil_intCast n
  · exact Int.floor_intCast n

/-! ## C4: store-facade update retries -/

/-- Helper for C4: a run of `n` consecutive 404 responses followed by a 200 succeeds
after `n + 1` POSTs, sleeping 2 seconds per 404, whatever the try counter says. -/
theorem resilient_missing_then_ok (fetchRev : ℕ → ℕ) (rev n : ℕ) :
    ∀ m p tries slept k, p + m = n →
      resilient_update_doc (fun j => if j < n then DbResp.missing else DbResp.ok) fetchRev
        tries p slept rev (m + 1 + k)
      = some (true, n + 1, slept + 2 * m, rev) := by
  intro m
  induction m with
  | zero =>
    intro p tries slept k hp
    have hp' : p = n := by omega
    rw [hp']
    have h1 : 0 + 1 + k = k + 1 := by omega
    rw [h1]
    simp [resilient_update_doc, lt_irrefl]
  | succ m ih =>
    intro p tries slept k hp
    have hlt : p < n := by omega
    have hstep : m + 1 + 1 + k = (m + 1 + k) + 1 := by omega
    rw [hstep]
    simp only [resilient_update_doc, if_pos hlt]
    rw [ih (p + 1) (tries + 1) (slept + 2) k (by omega)]
    have h2 : slept + 2 + 2 * m = slept + 2 * (m + 1) := by omega
    rw [h2]

/-- Helper for C4: against a persistently missing database, the update call never
returns — it retries forever, for any amount of fuel, any try counter included. -/
theorem resilient_missing_diverges (fetchRev : ℕ → ℕ) (rev : ℕ) :
    ∀ fuel tries posts slept,
      resilient_update_doc (fun _ => DbResp.missing) fetchRev tries posts slept rev fuel = none := by
  intro fuel
  induction fuel with
  | zero => intro tries posts slept; rfl
  | succ fuel ih =>
    intro tries posts slept
    simp only [resilient_update_doc]
    exact ih (tries + 1) (posts + 1) (slept + 2)

/-- Helper for C4: against persistent conflicts from `previous_tries = t` with
`t + d = 5`, the call makes `d + 1` POSTs, refetching the revision after each conflict
below the cap, and then raises on the conflict that exceeds it. -/
theorem resilient_conflict_raises (fetchRev : ℕ → ℕ) :
    ∀ d t posts slept rev k, t + d = 5 →
      (0 < d ∧ resilient_update_doc (fun _ => DbResp.conflict) fetchRev t posts slept rev (d + 1 + k)
        = some (false, posts + d + 1, slept, fetchRev (posts + d))) ∨
      (d = 0 ∧ resilient_update_doc (fun _ => DbResp.conflict) fetchRev t posts slept rev (d + 1 + k)
        = some (false, posts + 1, slept, rev)) := by
  intro d
  induction d with
  | zero =>
    intro t posts slept rev k ht
    right
    refine ⟨rfl, ?_⟩
    have h1 : 0 + 1 + k = k + 1 := by omega
    rw [h1]
    have ht' : ¬ (t < 5) := by omega
    simp [resilient_update_doc, ht']
  | succ d ih =>
    intro t posts slept rev k ht
    left
    refine ⟨Nat.succ_pos d, ?_⟩
    have hstep : d + 1 + 1 + k = (d + 1 + k) + 1 := by omega
    rw [hstep]
    have hlt : t < 5 := by omega
    simp only [resilient_update_doc, if_pos hlt]
    rcases ih (t + 1) (posts + 1) slept (fetchRev (posts + 1)) k (by omega) with ⟨_, h⟩ | ⟨hd, h⟩
    · rw [h]
      have e1 : posts + 1 + d + 1 = posts + (d + 1) + 1 := by omega
      have e2 : posts + 1 + d = posts + (d + 1) := by omega
      rw [e1, e2]
    · subst hd
      rw [h]

/-- C4 counterexample.  The claim says a missing-collection (404) failure is "also
subject to the same 5-attempt cap".  It is not: against a persistently missing
database the call at fuel 12 has already made 12 POSTs and is still retrying
(`none`), whereas the same fuel against persistent conflicts shows the cap working:
the call stops with a failure after exactly 6 POSTs. -/
theorem couchdb_update_retry_counterexample :
    resilient_update_doc (fun _ => DbResp.missing) (fun _ => 0) 0 0 0 0 12 = none ∧
    resilient_update_doc (fun _ => DbResp.conflict) (fun _ => 0) 0 0 0 0 12
      = some (false, 6, 0, 0) := by
  exact ⟨rfl, rfl⟩

/-- C4 amended: a version-conflict (409) failure is retried at most 5 times,
refetching the current revision each time, and the 6th consecutive conflict fails
with an error after exactly 6 POSTs; a missing-collection (404) failure sleeps the
2-second backoff and retries, but is NOT subject to any attempt cap: against a
persistently missing database the call never returns, and a run of `n` 404s followed
by a success has made `n + 1` POSTs and slept `2 * n` seconds. -/
theorem couchdb_update_retry_amended :
    ∀ (fetchRev : ℕ → ℕ) (rev : ℕ) (k : ℕ),
      (resilient_update_doc (fun _ => DbResp.conflict) fetchRev 0 0 0 rev (k + 6)
        = some (false, 6, 0, fetchRev 5)) ∧
      (resilient_update_doc (fun _ => DbResp.missing) fetchRev 0 0 0 rev k = none) ∧
      (∀ n, resilient_update_doc (fun j => if j < n then DbResp.missing else DbResp.ok) fetchRev
          0 0 0 rev (n + 1 + k) = some (true, n + 1, 2 * n, rev)) := by
  intro fetchRev rev k
  refine ⟨?_, resilient_missing_diverges fetchRev rev k 0 0 0, ?_⟩
  · have h6 : k + 6 = 5 + 1 + k := by omega
    rw [h6]
    rcases resilient_conflict_raises fetchRev 5 0 0 0 rev k (by omega) with ⟨_, h⟩ | ⟨hd, _⟩
    · simpa using h
    · omega
  · intro n
    have := resilient_missing_then_ok fetchRev rev n n 0 0 0 k (by omega)
    simpa using this

/-! ## C7: the rounding guard -/

/-- C7: the rounding guard of `match_rules_and_events` never flips the sign of a
nonzero amount: amounts strictly between -1 and 0 snap to -1, amounts strictly
between 0 and 1 snap to +1, and amounts of absolute value at least 1, or equal to 0,
are left unchanged. -/
theorem guardian_rounding_guard_sign :
    ∀ a : ℚ,
      (-1 < a → a < 0 → roundingGuard a = -1) ∧
      (0 < a → a < 1 → roundingGuard a = 1) ∧
      (1 ≤ |a| → roundingGuard a = a) ∧
      (a = 0 → roundingGuard a = a) := by
  intro a
  refine ⟨?_, ?_, ?_, ?_⟩
  · intro h1 h2
    have hpy : pyInt a = 0 := by
      simp only [pyInt, if_pos h2]
      exact Int.ceil_eq_zero_iff.mpr ⟨h1, le_of_lt h2⟩
    simp [roundingGuard, hpy, h2]
  · intro h1 h2
    have hneg : ¬ (a < 0) := not_lt_of_gt h1
    have hpy : pyInt a = 0 := by
      simp only [pyInt, if_neg hneg]
      exact Int.floor_eq_zero_iff.mpr ⟨le_of_lt h1, h2⟩
    simp [roundingGuard, hpy, hneg, h1]
  · intro h
    rcases le_abs'.mp h with h1 | h1
    · have hlt : a < 0 := lt_of_le_of_lt h1 (by norm_num)
      have hpy : pyInt a ≠ 0 := by
        simp only [pyInt, if_pos hlt]
        have : ⌈a⌉ ≤ -1 := Int.ceil_le.mpr (by exact_mod_cast h1)
        omega
      simp [roundingGuard, hpy]
    · have hge : ¬ (a < 0) := by
        intro hc
        have : (1 : ℚ) < 0 := lt_of_le_of_lt h1 hc
        norm_num at this
      have hpy : pyInt a ≠ 0 := by
        simp only [pyInt, if_neg hge]
        have : (1 : ℤ) ≤ ⌊a⌋ := Int.le_floor.mpr (by exact_mod_cast h1)
        omega
      simp [roundingGuard, hpy]
  · intro h
    subst h
    norm_num [roundingGuard, pyInt]

/-- C7 witness: the guard at -1/2, 1/2, 5 and 0. -/
theorem guardian_rounding_guard_sign_witness :
    roundingGuard (-1/2) = -1 ∧ roundingGuard (1/2) = 1 ∧
    roundingGuard 5 = 5 ∧ roundingGuard 0 = 0 :=
  ⟨(guardian_rounding_guard_sign (-1/2)).1 (by norm_num) (by norm_num),
   (guardian_rounding_guard_sign (1/2)).2.1 (by norm_num) (by norm_num),
   (guardian_rounding_guard_sign 5).2.2.1 (by norm_num),
   (guardian_rounding_guard_sign 0).2.2.2 rfl⟩

/-! ## C8: the fit-to-usage amount -/

/-- C8: for integer current limit, non-negative integer boundary and integer usage,
`get_amount_from_fit_reduction` returns exactly `(usage + boundary / 2 + boundary) -
current` with truncating integer division, equivalently the new current value after
applying the amount is `usage + boundary / 2 + boundary`. -/
theorem guardian_fit_reduction_formula :
    ∀ (current boundary usage : ℤ), 0 ≤ boundary →
      get_amount_from_fit_reduction current boundary (usage : ℚ)
        = (((usage + boundary / 2 + boundary) - current : ℤ) : ℚ) ∧
      (current : ℚ) + get_amount_from_fit_reduction current boundary (usage : ℚ)
        = ((usage + boundary / 2 + boundary : ℤ) : ℚ) := by
  intro current boundary usage hb
  have hnonneg : ¬ ((boundary : ℚ) / 2 < 0) := by
    push_neg
    positivity
  have hfloor : ⌊(boundary : ℚ) / 2⌋ = boundary / 2 := by
    have h2 : ((2 : ℕ) : ℚ) = (2 : ℚ) := by norm_num
    have := Rat.floor_intCast_div_natCast boundary 2
    rw [h2] at this
    simpa using this
  have hpy : pyInt ((boundary : ℚ) / 2) = boundary / 2 := by
    simp only [pyInt, if_neg hnonneg]
    exact hfloor
  constructor
  · unfold get_amount_from_fit_reduction
    rw [hpy]
    push_cast
    ring
  · unfold get_amount_from_fit_reduction
    rw [hpy]
    push_cast
    ring

/-- C8 witness: current 140, boundary 20, usage 180 (scenario S1) yields amount 70,
placing the new current at 210. -/
theorem guardian_fit_reduction_formula_witness :
    get_amount_from_fit_reduction 140 20 ((180 : ℤ) : ℚ) = ((70 : ℤ) : ℚ) ∧
    ((140 : ℤ) : ℚ) + get_amount_from_fit_reduction 140 20 ((180 : ℤ) : ℚ) = ((210 : ℤ) : ℚ) := by
  obtain ⟨h1, h2⟩ := guardian_fit_reduction_formula 140 20 180 (by decide)
  constructor
  · rw [h1]; norm_num
  · rw [h2]; norm_num

/-! ## C9: the reduce homomorphism -/

theorem addRed_none_right (a : Option ReducedRec) : addRed a none = a := by
  cases a with
  | none => rfl
  | some v => simp [addRed]

theorem addRed_none_left (b : Option ReducedRec) : addRed none b = b := by
  cases b with
  | none => rfl
  | some v => simp [addRed]

/-- The value of one reduction step at a key: the event's resource gets the event's
counters added onto the (zero-defaulted) accumulator entry, other keys are untouched. -/
theorem reduceStep_apply (acc : String → Option ReducedRec) (e : EventDoc) (res : String) :
    reduceStep acc e res =
      if res = e.resource then
        some ⟨((acc e.resource).getD ⟨0, 0⟩).up + e.scaleUp.getD 0,
              ((acc e.resource).getD ⟨0, 0⟩).down + e.scaleDown.getD 0⟩
      else acc res := by
  cases hu : e.scaleUp <;> cases hd : e.scaleDown <;>
    simp [reduceStep, updMap, hu, hd]

/-- Accumulator generalisation: folding the reduction over a list starting from any
accumulator equals the componentwise sum of the accumulator and the reduction from
scratch. -/
theorem reduce_from_acc :
    ∀ (events : List EventDoc) (acc : String → Option ReducedRec) (res : String),
      (events.foldl reduceStep acc) res = addRed (acc res) (reduce_structure_events events res) := by
  intro events
  induction events with
  | nil =>
    intro acc res
    simp [reduce_structure_events, addRed_none_right]
  | cons e es ih =>
    intro acc res
    have hL : ((e :: es).foldl reduceStep acc) res = addRed ((reduceStep acc e) res)
        (reduce_structure_events es res) := by
      simp only [List.foldl_cons]
      exact ih (reduceStep acc e) res
    have hR : reduce_structure_events (e :: es) res
        = addRed ((reduceStep (fun _ => none) e) res) (reduce_structure_events es res) := by
      unfold reduce_structure_events
      simp only [List.foldl_cons]
      exact ih (reduceStep (fun _ => none) e) res
    rw [hL, hR]
    rw [reduceStep_apply, reduceStep_apply]
    by_cases hres : res = e.resource
    · simp only [hres, if_pos rfl]
      cases hacc : acc e.resource with
      | none =>
        cases hrest : reduce_structure_events es res with
        | none => simp [addRed] <;> omega
        | some w => simp [addRed] <;> omega
      | some v =>
        cases hrest : reduce_structure_events es res with
        | none => simp [addRed] <;> omega
        | some w => simp [addRed] <;> omega
    · simp only [if_neg hres]
      rw [addRed_none_left]

/-- C9: `reduce_structure_events` is a homomorphism from event lists to per-resource
counters: reducing a concatenation equals the componentwise sum of the two
reductions, a resource absent from one side counting as zero counters. -/
theorem guardian_reduce_homomorphism :
    ∀ (A B : List EventDoc) (res : String),
      reduce_structure_events (A ++ B) res
        = addRed (reduce_structure_events A res) (reduce_structure_events B res) := by
  intro A B res
  unfold reduce_structure_events
  rw [List.foldl_append]
  exact reduce_from_acc B (List.foldl reduceStep (fun _ => none) A) res

/-! ## C6: event aging -/

/-- Position-indexed characterisation of the sorting loop: each event is classified
against the clock value read at its own iteration. -/
theorem sortEventsGo_eq (clock : ℕ → ℚ) (t : ℤ) :
    ∀ (es : List EventDoc) (i : ℕ),
      sortEventsGo clock t i es =
        (((es.enumFrom i).filter fun p => !decide ((p.2.timestamp : ℚ) < clock p.1 - (t : ℚ))).map Prod.snd,
         ((es.enumFrom i).filter fun p => decide ((p.2.timestamp : ℚ) < clock p.1 - (t : ℚ))).map Prod.snd) := by
  intro es
  induction es with
  | nil => intro i; rfl
  | cons e es ih =>
    intro i
    by_cases h : (e.timestamp : ℚ) < clock i - (t : ℚ) <;>
      simp [sortEventsGo, List.enumFrom, h, ih (i + 1)]

/-- Constant-clock specialisation: with a single `now` value the loop is the
filter partition of the claim. -/
theorem sortEventsGo_const (now : ℚ) (t : ℤ) :
    ∀ (es : List EventDoc) (i : ℕ),
      sortEventsGo (fun _ => now) t i es =
        (es.filter fun e => !decide ((e.timestamp : ℚ) < now - (t : ℚ)),
         es.filter fun e => decide ((e.timestamp : ℚ) < now - (t : ℚ))) := by
  intro es
  induction es with
  | nil => intro i; rfl
  | cons e es ih =>
    intro i
    by_cases h : (e.timestamp : ℚ) < now - (t : ℚ) <;>
      simp [sortEventsGo, List.filter, h, ih (i + 1)]

/-- C6 amended: `sort_events` partitions the list order-preservingly, but each event
is classified against the `time.time()` value read in its own loop iteration
(`clock i` for the event at position `i`), not a single per-call value; when every
read returns the same value the partition is exactly the claimed one, valid being
timestamp ≥ now − timeout and stale being timestamp < now − timeout. -/
theorem guardian_sort_events_amended :
    ∀ (clock : ℕ → ℚ) (now : ℚ) (events : List EventDoc) (t : ℤ),
      sort_events clock events t =
        (((events.enumFrom 0).filter fun p => !decide ((p.2.timestamp : ℚ) < clock p.1 - (t : ℚ))).map Prod.snd,
         ((events.enumFrom 0).filter fun p => decide ((p.2.timestamp : ℚ) < clock p.1 - (t : ℚ))).map Prod.snd) ∧
      sort_events (fun _ => now) events t =
        (events.filter fun e => !decide ((e.timestamp : ℚ) < now - (t : ℚ)),
         events.filter fun e => decide ((e.timestamp : ℚ) < now - (t : ℚ))) := by
  intro clock now events t
  exact ⟨sortEventsGo_eq clock t events 0, sortEventsGo_const now t events 0⟩

/-- First event of the C6 counterexample, timestamp -5. -/
def cexC6e1 : EventDoc :=
  ⟨"e1", "cpu", "node0", -5, some 1, none⟩

/-- Second event of the C6 counterexample, timestamp 50. -/
def cexC6e2 : EventDoc :=
  ⟨"e2", "cpu", "node0", 50, some 1, none⟩

/-- Clock trace of the C6 counterexample: the first `time.time()` read returns 0,
every later read returns 100. -/
def cexC6clock : ℕ → ℚ :=
  fun i => if i = 0 then 0 else 100

/-- C6 counterexample.  With timeout 40 and the clock advancing from 0 to 100 between
the two loop iterations, `sort_events` keeps the event with timestamp -5 (since
-5 ≥ 0 - 40) and drops the event with timestamp 50 (since 50 < 100 - 40): no single
captured `now` value produces that partition, so the classification provably does not
use one time reference per call. -/
theorem guardian_sort_events_counterexample :
    sort_events cexC6clock [cexC6e1, cexC6e2] 40 = ([cexC6e1], [cexC6e2]) ∧
    ¬ ∃ now : ℚ, sort_events (fun _ => now) [cexC6e1, cexC6e2] 40 = ([cexC6e1], [cexC6e2]) := by
  constructor
  · norm_num [sort_events, sortEventsGo, cexC6clock, cexC6e1, cexC6e2]
  · rintro ⟨now, hnow⟩
    rw [show sort_events (fun _ => now) [cexC6e1, cexC6e2] 40
        = sortEventsGo (fun _ => now) 40 0 [cexC6e1, cexC6e2] from rfl,
      sortEventsGo_const now 40 [cexC6e1, cexC6e2] 0] at hnow
    have hv : List.filter (fun e => !decide ((e.timestamp : ℚ) < now - ((40 : ℤ) : ℚ)))
        [cexC6e1, cexC6e2] = [cexC6e1] := congrArg Prod.fst hnow
    have hs : List.filter (fun e => decide ((e.timestamp : ℚ) < now - ((40 : ℤ) : ℚ)))
        [cexC6e1, cexC6e2] = [cexC6e2] := congrArg Prod.snd hnow
    have he1 : cexC6e1 ∈ List.filter (fun e => !decide ((e.timestamp : ℚ) < now - ((40 : ℤ) : ℚ)))
        [cexC6e1, cexC6e2] := by rw [hv]; exact List.mem_singleton.mpr rfl
    have he2 : cexC6e2 ∈ List.filter (fun e => decide ((e.timestamp : ℚ) < now - ((40 : ℤ) : ℚ)))
        [cexC6e1, cexC6e2] := by rw [hs]; exact List.mem_singleton.mpr rfl
    have hb1 : ¬ ((cexC6e1.timestamp : ℚ) < now - ((40 : ℤ) : ℚ)) := by
      have := (List.mem_filter.mp he1).2
      simpa using this
    have hb2 : (cexC6e2.timestamp : ℚ) < now - ((40 : ℤ) : ℚ) := by
      have := (List.mem_filter.mp he2).2
      simpa using this
    have hv1 : (cexC6e1.timestamp : ℚ) = -5 := by norm_num [cexC6e1]
    have hv2 : (cexC6e2.timestamp : ℚ) = 50 := by norm_num [cexC6e2]
    rw [hv1] at hb1
    rw [hv2] at hb2
    have h40 : ((40 : ℤ) : ℚ) = 40 := by norm_num
    rw [h40] at hb1 hb2
    linarith

/-! ## The validate/repair loop: lemmas for C1, C3, C10 -/

/-- Unpacking a passing check: both entries exist, `current` is set, and the
state chain `lower ≤ upper = current - boundary ≤ current ≤ max` holds. -/
theorem check_ok_elim (resources : RMap) (limits : LMap) (res : String)
    (h : check_invalid_container_state resources limits res = .ok) :
    ∃ rr lr c, resources res = some rr ∧ limits res = some lr ∧ rr.current = some c ∧
      c ≤ rr.max ∧ lr.upper ≤ c ∧ lr.lower ≤ lr.upper ∧ lr.upper = c - lr.boundary := by
  unfold check_invalid_container_state at h
  split at h
  · exact absurd h (by simp)
  rename_i rr hr
  split at h
  · exact absurd h (by simp)
  rename_i lr hl
  split at h
  · exact absurd h (by simp)
  rename_i c hc
  split_ifs at h with h1 h2 h3 h4 h5 <;> try simp at h
  exact ⟨rr, lr, c, hr, hl, hc, le_of_not_lt h1, le_of_not_lt h2, le_of_not_lt h3, by omega⟩

/-- The check reads only the entry of its own resource from the limits map. -/
theorem check_congr (resources : RMap) (l1 l2 : LMap) (res : String)
    (h : l1 res = l2 res) :
    check_invalid_container_state resources l1 res
      = check_invalid_container_state resources l2 res := by
  unfold check_invalid_container_state
  rw [h]

/-- Unpacking a successful repair step. -/
theorem repairStep_some_elim (resources : RMap) (limits : LMap) (res : String) (l1 : LMap)
    (h : repairStep resources limits res = some l1) :
    ∃ lr c, limits res = some lr ∧ (resources res).bind (fun rr => rr.current) = some c ∧
      l1 = updMap limits res ⟨c - lr.boundary - lr.boundary, c - lr.boundary, lr.boundary⟩ := by
  unfold repairStep at h
  split at h
  · rename_i lr c hl hc
    exact ⟨lr, c, hl, hc, (Option.some.inj h).symm⟩
  · exact absurd h (by simp)

/-- Computing a repair step from its two lookups. -/
theorem repairStep_eq (resources : RMap) (limits : LMap) (res : String) (lr : LimitRec) (c : ℤ)
    (hl : limits res = some lr)
    (hc : (resources res).bind (fun rr => rr.current) = some c) :
    repairStep resources limits res
      = some (updMap limits res ⟨c - lr.boundary - lr.boundary, c - lr.boundary, lr.boundary⟩) := by
  unfold repairStep
  rw [hl, hc]

/-- A repaired state is a fixed point of the repair. -/
theorem repairStep_fixpoint (resources : RMap) (limits : LMap) (res : String) (l1 : LMap)
    (h : repairStep resources limits res = some l1) :
    repairStep resources l1 res = some l1 := by
  obtain ⟨lr, c, hl, hc, hl1⟩ := repairStep_some_elim resources limits res l1 h
  subst hl1
  have h1 : (updMap limits res ⟨c - lr.boundary - lr.boundary, c - lr.boundary, lr.boundary⟩) res
      = some ⟨c - lr.boundary - lr.boundary, c - lr.boundary, lr.boundary⟩ := updMap_same _ _ _
  rw [repairStep_eq resources _ res _ c h1 hc]
  simp [updMap_idem]

/-- One unfolding of the loop body. -/
theorem adjustLoopGo_succ (resources : RMap) (res : String) (fuel n : ℕ) (limits : LMap) :
    adjustLoopGo resources res (fuel + 1) n limits =
      match check_invalid_container_state resources limits res with
      | .runtimeErr e => .error e
      | .ok => if n + 1 ≥ 10 then .error .unfixable else .ok limits
      | .valueErr =>
        match repairStep resources limits res with
        | none => .error .crash
        | some limits1 =>
          if n + 1 ≥ 10 then .error .unfixable
          else adjustLoopGo resources res fuel (n + 1) limits1 := rfl

/-- A successful loop exit means the final limits pass the check. -/
theorem adjustLoopGo_ok_check (resources : RMap) (res : String) :
    ∀ fuel n limits l1, n < 10 → fuel + n = 10 →
      adjustLoopGo resources res fuel n limits = .ok l1 →
      check_invalid_container_state resources l1 res = .ok := by
  intro fuel
  induction fuel with
  | zero => intro n limits l1 hn hfn h; omega
  | succ fuel ih =>
    intro n limits l1 hn hfn h
    rw [adjustLoopGo_succ] at h
    split at h
    · simp at h
    · rename_i hc
      split_ifs at h
      exact (Except.ok.inj h) ▸ hc
    · rename_i hc
      split at h
      · simp at h
      · rename_i limits1 hrep
        split_ifs at h with h10
        exact ih (n + 1) limits1 l1 (by omega) (by omega) h

/-- The loop only ever rewrites the entry of its own resource. -/
theorem adjustLoopGo_frame (resources : RMap) (res : String) :
    ∀ fuel n limits l1, adjustLoopGo resources res fuel n limits = .ok l1 →
      ∀ s, s ≠ res → l1 s = limits s := by
  intro fuel
  induction fuel with
  | zero =>
    intro n limits l1 h s hs
    rw [← Except.ok.inj h]
  | succ fuel ih =>
    intro n limits l1 h s hs
    rw [adjustLoopGo_succ] at h
    split at h
    · simp at h
    · split_ifs at h
      rw [← Except.ok.inj h]
    · split at h
      · simp at h
      · rename_i limits1 hrep
        split_ifs at h with h10
        obtain ⟨lr, c, hl, hc, hl1⟩ := repairStep_some_elim resources limits res limits1 hrep
        have h2 : limits1 s = limits s := by
          rw [hl1]
          exact updMap_other _ _ _ _ hs
        rw [ih (n + 1) limits1 l1 h s hs, h2]

/-- The loop preserves the boundary field of its resource's entry. -/
theorem adjustLoopGo_boundary (resources : RMap) (res : String) :
    ∀ fuel n limits l1 lr, adjustLoopGo resources res fuel n limits = .ok l1 →
      limits res = some lr → ∃ lr1, l1 res = some lr1 ∧ lr1.boundary = lr.boundary := by
  intro fuel
  induction fuel with
  | zero =>
    intro n limits l1 lr h hl
    rw [← Except.ok.inj h]
    exact ⟨lr, hl, rfl⟩
  | succ fuel ih =>
    intro n limits l1 lr h hl
    rw [adjustLoopGo_succ] at h
    split at h
    · simp at h
    · split_ifs at h
      rw [← Except.ok.inj h]
      exact ⟨lr, hl, rfl⟩
    · split at h
      · simp at h
      · rename_i limits1 hrep
        split_ifs at h with h10
        obtain ⟨lr0, c, hl0, hc, hl1⟩ := repairStep_some_elim resources limits res limits1 hrep
        have hlr : lr0 = lr := Option.some.inj (hl0.symm.trans hl)
        subst hlr
        have h2 : limits1 res = some ⟨c - lr0.boundary - lr0.boundary, c - lr0.boundary, lr0.boundary⟩ := by
          rw [hl1]
          exact updMap_same _ _ _
        obtain ⟨lr1, hlr1, hb⟩ := ih (n + 1) limits1 l1
          ⟨c - lr0.boundary - lr0.boundary, c - lr0.boundary, lr0.boundary⟩ h h2
        exact ⟨lr1, hlr1, hb⟩

/-- Once the repair reaches a fixed point that still fails the check, the loop burns
its remaining iterations and raises the unfixable error. -/
theorem adjustLoopGo_stuck (resources : RMap) (res : String) (l1 : LMap)
    (hc : check_invalid_container_state resources l1 res = .valueErr)
    (hfix : repairStep resources l1 res = some l1) :
    ∀ fuel n, n < 10 → fuel + n = 10 →
      adjustLoopGo resources res fuel n l1 = .error .unfixable := by
  intro fuel
  induction fuel with
  | zero => intro n hn hfn; omega
  | succ fuel ih =>
    intro n hn hfn
    rw [adjustLoopGo_succ]
    simp only [hc, hfix]
    by_cases h10 : n + 1 ≥ 10
    · rw [if_pos h10]
    · rw [if_neg h10]
      exact ih (n + 1) (by omega) (by omega)

/-- The check's RuntimeErrors are only the three fatal ones; in particular it never
reports the loop's own unfixable error. -/
theorem check_runtime_cases (resources : RMap) (limits : LMap) (res : String) (e : AdjustErr)
    (h : check_invalid_container_state resources limits res = .runtimeErr e) :
    e = .missingResource ∨ e = .missingLimit ∨ e = .currentAboveMax := by
  unfold check_invalid_container_state at h
  split at h
  · exact Or.inl (CheckOutcome.runtimeErr.inj h).symm
  split at h
  · exact Or.inr (Or.inl (CheckOutcome.runtimeErr.inj h).symm)
  split at h
  · simp at h
  split_ifs at h <;> try simp at h
  exact Or.inr (Or.inr h.symm)

/-- After one successful repair, every further repair iteration returns the same
repaired state. -/
theorem repairIter_ge_one (resources : RMap) (limits : LMap) (res : String) (l1 : LMap)
    (hr : repairStep resources limits res = some l1) :
    ∀ j, repairIter resources res (j + 1) limits = some l1 := by
  intro j
  induction j with
  | zero => simp [repairIter, hr]
  | succ j ih =>
    show (repairIter resources res (j + 1) limits).bind
      (fun l => repairStep resources l res) = some l1
    rw [ih]
    simp [repairStep_fixpoint resources limits res l1 hr]

/-- C3: in `adjust_container_state` a resource undergoes at most 10 validate/repair
iterations, and the `RuntimeError("Error fixing limits")` is raised exactly when the
state is still invalid after the repairs — that is, when the initial validation
fails repairably and the (idempotent) repaired state still fails it; consequently a
state whose validation succeeds at any of the 10 attempts never raises it. -/
theorem guardian_repair_loop_unfixable :
    ∀ (resources : RMap) (limits : LMap) (res : String),
      (adjustSingleResource resources limits res = .error .unfixable ↔
        (check_invalid_container_state resources limits res = .valueErr ∧
         ∃ l1, repairStep resources limits res = some l1 ∧
           check_invalid_container_state resources l1 res = .valueErr)) ∧
      ((∃ i, i < 10 ∧ ∃ li, repairIter resources res i limits = some li ∧
          check_invalid_container_state resources li res = .ok) →
        adjustSingleResource resources limits res ≠ .error .unfixable) := by
  intro resources limits res
  have h10 : adjustSingleResource resources limits res
      = adjustLoopGo resources res (9 + 1) 0 limits := rfl
  have hiff : adjustSingleResource resources limits res = .error .unfixable ↔
      (check_invalid_container_state resources limits res = .valueErr ∧
       ∃ l1, repairStep resources limits res = some l1 ∧
         check_invalid_container_state resources l1 res = .valueErr) := by
    cases hc : check_invalid_container_state resources limits res with
    | ok =>
      have hval : adjustSingleResource resources limits res = .ok limits := by
        rw [h10, adjustLoopGo_succ, hc]
        norm_num
      refine iff_of_false ?_ ?_
      · rw [hval]
        exact fun hcontra => Except.noConfusion hcontra
      · rintro ⟨hcv, _⟩
        exact CheckOutcome.noConfusion hcv
    | runtimeErr e =>
      have hval : adjustSingleResource resources limits res = .error e := by
        rw [h10, adjustLoopGo_succ, hc]
      refine iff_of_false ?_ ?_
      · rw [hval]
        intro hcontra
        have he : e = .unfixable := Except.error.inj hcontra
        rcases check_runtime_cases resources limits res e hc with h | h | h <;>
          (subst h; exact AdjustErr.noConfusion he)
      · rintro ⟨hcv, _⟩
        exact CheckOutcome.noConfusion hcv
    | valueErr =>
      cases hr : repairStep resources limits res with
      | none =>
        have hval : adjustSingleResource resources limits res = .error .crash := by
          rw [h10, adjustLoopGo_succ, hc, hr]
        refine iff_of_false ?_ ?_
        · rw [hval]
          intro hcontra
          exact AdjustErr.noConfusion (Except.error.inj hcontra)
        · rintro ⟨_, l1, hrx, _⟩
          exact Option.noConfusion hrx
      | some l1 =>
        have hstep : adjustSingleResource resources limits res
            = adjustLoopGo resources res 9 1 l1 := by
          rw [h10, adjustLoopGo_succ, hc, hr]
          norm_num
        cases hc1 : check_invalid_container_state resources l1 res with
        | ok =>
          have hval : adjustLoopGo resources res 9 1 l1 = .ok l1 := by
            rw [show (9 : ℕ) = 8 + 1 from rfl, adjustLoopGo_succ, hc1]
            norm_num
          refine iff_of_false ?_ ?_
          · rw [hstep, hval]
            exact fun hcontra => Except.noConfusion hcontra
          · rintro ⟨_, l1', hrx, hcv⟩
            have hl1 : l1 = l1' := Option.some.inj hrx
            rw [← hl1, hc1] at hcv
            exact CheckOutcome.noConfusion hcv
        | runtimeErr e =>
          have hval : adjustLoopGo resources res 9 1 l1 = .error e := by
            rw [show (9 : ℕ) = 8 + 1 from rfl, adjustLoopGo_succ, hc1]
          refine iff_of_false ?_ ?_
          · rw [hstep, hval]
            intro hcontra
            have he : e = .unfixable := Except.error.inj hcontra
            rcases check_runtime_cases resources l1 res e hc1 with h | h | h <;>
              (subst h; exact AdjustErr.noConfusion he)
          · rintro ⟨_, l1', hrx, hcv⟩
            have hl1 : l1 = l1' := Option.some.inj hrx
            rw [← hl1, hc1] at hcv
            exact CheckOutcome.noConfusion hcv
        | valueErr =>
          have hfix := repairStep_fixpoint resources limits res l1 hr
          have hval := adjustLoopGo_stuck resources res l1 hc1 hfix 9 1 (by omega) (by omega)
          refine iff_of_true ?_ ⟨rfl, l1, rfl, hc1⟩
          rw [hstep]
          exact hval
  refine ⟨hiff, ?_⟩
  rintro ⟨i, hi, li, hiter, hok⟩ hcontra
  obtain ⟨hc, l1, hr, hc1⟩ := hiff.mp hcontra
  cases i with
  | zero =>
    have hli : limits = li :=
      Option.some.inj ((rfl : repairIter resources res 0 limits = some limits).symm.trans hiter)
    rw [← hli, hc] at hok
    exact CheckOutcome.noConfusion hok
  | succ j =>
    have hj := repairIter_ge_one resources limits res l1 hr j
    have hli : l1 = li := Option.some.inj (hj.symm.trans hiter)
    rw [← hli, hc1] at hok
    exact CheckOutcome.noConfusion hok

/-- Unpacking a successful `adjust_container_state` run: the resources are returned
untouched, unlisted limit entries survive unchanged, every listed resource's final
entry passes the check, and its boundary survives unchanged. -/
theorem adjust_ok_elim :
    ∀ (R : List String) (resources : RMap) (limits : LMap) (r1 : RMap) (l1 : LMap),
      adjust_container_state resources limits R = .ok (r1, l1) →
      r1 = resources ∧
      (∀ s, s ∉ R → l1 s = limits s) ∧
      (∀ s ∈ R, check_invalid_container_state resources l1 s = .ok) ∧
      (∀ s ∈ R, ∀ lr lr1, limits s = some lr → l1 s = some lr1 → lr1.boundary = lr.boundary) := by
  intro R
  induction R with
  | nil =>
    intro resources limits r1 l1 h
    unfold adjust_container_state at h
    have hp := Except.ok.inj h
    have h1 : resources = r1 := congrArg Prod.fst hp
    have h2 : limits = l1 := congrArg Prod.snd hp
    refine ⟨h1.symm, fun s _ => by rw [← h2], ?_, ?_⟩
    · intro s hs
      exact absurd hs (List.not_mem_nil s)
    · intro s hs
      exact absurd hs (List.not_mem_nil s)
  | cons res rest ih =>
    intro resources limits r1 l1 h
    unfold adjust_container_state at h
    split at h
    · simp at h
    rename_i limits1 hsingle
    obtain ⟨hr, hframe, hcheck, hbound⟩ := ih resources limits1 r1 l1 h
    refine ⟨hr, ?_, ?_, ?_⟩
    · intro s hs
      have hs1 : s ∉ rest := fun hc => hs (List.mem_cons_of_mem res hc)
      have hs2 : s ≠ res := fun hc => hs (hc ▸ List.mem_cons_self res rest)
      rw [hframe s hs1]
      exact adjustLoopGo_frame resources res 10 0 limits limits1 hsingle s hs2
    · intro s hsmem
      rcases List.mem_cons.mp hsmem with hsr | hsr
      · subst hsr
        by_cases hin : s ∈ rest
        · exact hcheck s hin
        · have hl1s : l1 s = limits1 s := hframe s hin
          have hc1 : check_invalid_container_state resources limits1 s = .ok :=
            adjustLoopGo_ok_check resources s 10 0 limits limits1 (by omega) (by omega) hsingle
          rw [check_congr resources l1 limits1 s hl1s]
          exact hc1
      · exact hcheck s hsr
    · intro s hsmem lr lr1 hls hl1s
      rcases List.mem_cons.mp hsmem with hsr | hsr
      · subst hsr
        obtain ⟨lrm, hlrm, hbm⟩ :=
          adjustLoopGo_boundary resources s 10 0 limits limits1 lr hsingle hls
        by_cases hin : s ∈ rest
        · exact (hbound s hin lrm lr1 hlrm hl1s).trans hbm
        · have hf : l1 s = limits1 s := hframe s hin
          rw [hf] at hl1s
          have heq : lrm = lr1 := Option.some.inj (hlrm.symm.trans hl1s)
          rw [← heq]
          exact hbm
      · by_cases hsres : s = res
        · subst hsres
          obtain ⟨lrm, hlrm, hbm⟩ :=
            adjustLoopGo_boundary resources s 10 0 limits limits1 lr hsingle hls
          exact (hbound s hsr lrm lr1 hlrm hl1s).trans hbm
        · have hfs : limits1 s = limits s :=
            adjustLoopGo_frame resources res 10 0 limits limits1 hsingle s hsres
          exact hbound s hsr lr lr1 (hfs.trans hls) hl1s

/-- Resource map of the C1 inputs: cpu with min 0, max 100, current 50. -/
def cexC1r : RMap :=
  fun s => if s = "cpu" then some ⟨0, 100, some 50, none, true⟩ else none

/-- Limits map of the C1 inputs: cpu with lower 25, upper 30, boundary 20.  The
state passes the check (25 ≤ 30 = 50 - 20 ≤ 50 ≤ 100), so no repair runs, yet
`lower ≠ upper - boundary`. -/
def cexC1l : LMap :=
  fun s => if s = "cpu" then some ⟨25, 30, 20⟩ else none

/-- C1 counterexample.  `adjust_container_state` accepts the state whose cpu limits
are lower 25, upper 30, boundary 20 (with current 50) without touching it: the
validation never checks `lower = upper - boundary`, so after the successful return
the claimed equation fails (25 ≠ 30 - 20). -/
theorem guardian_state_invariant_counterexample :
    adjust_container_state cexC1r cexC1l ["cpu"] = .ok (cexC1r, cexC1l) ∧
    cexC1l "cpu" = some ⟨25, 30, 20⟩ ∧ cexC1r "cpu" = some ⟨0, 100, some 50, none, true⟩ ∧
    ¬ ((25 : ℤ) = 30 - 20) :=
  ⟨rfl, rfl, rfl, by decide⟩

/-- C1 amended: when `adjust_container_state` returns successfully, every adjusted
resource present in the maps has a set current value with
`upper = current - boundary`, `current ≤ max` and `lower ≤ upper`; the claim's
stronger `lower = upper - boundary` only holds when a repair actually ran and is not
re-established for states that already validate. -/
theorem guardian_state_invariant_amended :
    ∀ (resources : RMap) (limits : LMap) (R : List String) (r1 : RMap) (l1 : LMap),
      adjust_container_state resources limits R = .ok (r1, l1) →
      ∀ res ∈ R, ∃ rr lr c,
        resources res = some rr ∧ l1 res = some lr ∧ rr.current = some c ∧
        lr.upper = c - lr.boundary ∧ c ≤ rr.max ∧ lr.lower ≤ lr.upper := by
  intro resources limits R r1 l1 h res hres
  obtain ⟨_, _, hcheck, _⟩ := adjust_ok_elim R resources limits r1 l1 h
  obtain ⟨rr, lr, c, h1, h2, h3, h4, h5, h6, h7⟩ :=
    check_ok_elim resources l1 res (hcheck res hres)
  exact ⟨rr, lr, c, h1, h2, h3, h7, h4, h6⟩

/-- C1 witness: the amended invariant at the concrete succeeding run. -/
theorem guardian_state_invariant_amended_witness :
    ∃ rr lr c,
      cexC1r "cpu" = some rr ∧ cexC1l "cpu" = some lr ∧ rr.current = some c ∧
      lr.upper = c - lr.boundary ∧ c ≤ rr.max ∧ lr.lower ≤ lr.upper :=
  guardian_state_invariant_amended cexC1r cexC1l ["cpu"] cexC1r cexC1l rfl "cpu"
    (List.mem_singleton.mpr rfl)

/-- C3 witness resources: cpu with min 0, max 100, current 50. -/
def cexC3r : RMap :=
  fun s => if s = "cpu" then some ⟨0, 100, some 50, none, true⟩ else none

/-- C3 witness limits: upper 95 exceeds current 50, so the state is invalid but one
repair fixes it. -/
def cexC3l : LMap :=
  fun s => if s = "cpu" then some ⟨90, 95, 20⟩ else none

/-- C3 witness: a state that validates at the second attempt (after one repair) does
not raise the unfixable error. -/
theorem guardian_repair_loop_unfixable_witness :
    adjustSingleResource cexC3r cexC3l "cpu" ≠ .error .unfixable :=
  (guardian_repair_loop_unfixable cexC3r cexC3l "cpu").2
    ⟨1, by omega, updMap cexC3l "cpu" ⟨10, 30, 20⟩, rfl, by decide⟩

/-- C10 witness resources. -/
def cexC10r : RMap :=
  fun s => if s = "cpu" then some ⟨0, 100, some 50, none, true⟩ else none

/-- C10 witness limits, invalid so that a repair actually runs. -/
def cexC10l : LMap :=
  fun s => if s = "cpu" then some ⟨90, 95, 20⟩ else none

/-- The limits after the C10 witness run: only the cpu entry is rewritten. -/
def cexC10l1 : LMap := updMap cexC10l "cpu" ⟨10, 30, 20⟩

/-- C10: `adjust_container_state` returns the resources argument unchanged, leaves
the limit entries of resources outside the adjusted list unchanged, and preserves
the boundary field of every adjusted entry. -/
theorem guardian_adjust_frame :
    ∀ (resources : RMap) (limits : LMap) (R : List String) (r1 : RMap) (l1 : LMap),
      adjust_container_state resources limits R = .ok (r1, l1) →
      r1 = resources ∧
      (∀ s, s ∉ R → l1 s = limits s) ∧
      (∀ s ∈ R, ∀ lr lr1, limits s = some lr → l1 s = some lr1 → lr1.boundary = lr.boundary) := by
  intro resources limits R r1 l1 h
  obtain ⟨h1, h2, _, h4⟩ := adjust_ok_elim R resources limits r1 l1 h
  exact ⟨h1, h2, h4⟩

/-- C10 witness: on the concrete run that repairs the cpu entry, the mem entry is
untouched and the cpu boundary is preserved. -/
theorem guardian_adjust_frame_witness :
    cexC10l1 "mem" = cexC10l "mem" ∧
    (⟨10, 30, 20⟩ : LimitRec).boundary = (⟨90, 95, 20⟩ : LimitRec).boundary := by
  have h := guardian_adjust_frame cexC10r cexC10l ["cpu"] cexC10r cexC10l1 rfl
  exact ⟨h.2.1 "mem" (by decide), h.2.2 "cpu" (List.mem_singleton.mpr rfl) ⟨90, 95, 20⟩ ⟨10, 30, 20⟩ rfl rfl⟩

/-! ## C2 and C5: the request pipeline -/

/-- Unpacking a successful clamp: the current value exists and the result is the
two-sided trim of the source. -/
theorem adjust_amount_some_elim (a : ℚ) (rr : ResourceRec) (lr : LimitRec) (a1 : ℚ)
    (h : adjust_amount a rr lr = some a1) :
    ∃ c, rr.current = some c ∧
      a1 = (if (lr.lower : ℚ) + a < (rr.min : ℚ) then a + ((rr.min : ℚ) - ((lr.lower : ℚ) + a))
            else if (c : ℚ) + a > (rr.max : ℚ) then a - (((c : ℚ) + a) - (rr.max : ℚ))
            else a) := by
  unfold adjust_amount at h
  split at h
  · simp at h
  · rename_i c hc
    exact ⟨c, hc, (Option.some.inj h).symm⟩

/-- Amounts surviving the clamp keep the structure inside its allowed range,
provided the limits document satisfies `min ≤ lower ≤ current ≤ max`. -/
theorem adjust_amount_bounds (a : ℚ) (rr : ResourceRec) (lr : LimitRec) (c : ℤ) (a1 : ℚ)
    (hcur : rr.current = some c) (h1 : rr.min ≤ lr.lower) (h2 : lr.lower ≤ c) (h3 : c ≤ rr.max)
    (heq : adjust_amount a rr lr = some a1) :
    (rr.min : ℚ) ≤ (c : ℚ) + a1 ∧ (c : ℚ) + a1 ≤ (rr.max : ℚ) ∧
    (rr.min : ℚ) ≤ (lr.lower : ℚ) + a1 := by
  obtain ⟨c', hc', hform⟩ := adjust_amount_some_elim a rr lr a1 heq
  have hcc : c' = c := Option.some.inj (hc'.symm.trans hcur)
  subst hcc
  have hq1 : (rr.min : ℚ) ≤ (lr.lower : ℚ) := by exact_mod_cast h1
  have hq2 : (lr.lower : ℚ) ≤ (c' : ℚ) := by exact_mod_cast h2
  have hq3 : (c' : ℚ) ≤ (rr.max : ℚ) := by exact_mod_cast h3
  subst hform
  split_ifs with hb1 hb2
  · exact ⟨by linarith, by linarith, by linarith⟩
  · exact ⟨by linarith, by linarith, by linarith⟩
  · exact ⟨by linarith, by linarith, by linarith⟩

/-- Truncating a clamped amount toward zero keeps all three bounds, as integers. -/
theorem pyInt_clamp_bounds (mn mx lo c : ℤ) (a1 : ℚ)
    (hmc : mn ≤ c) (hcm : c ≤ mx) (hml : mn ≤ lo)
    (hb1 : (mn : ℚ) ≤ (c : ℚ) + a1) (hb2 : (c : ℚ) + a1 ≤ (mx : ℚ))
    (hb3 : (mn : ℚ) ≤ (lo : ℚ) + a1) :
    mn ≤ c + pyInt a1 ∧ c + pyInt a1 ≤ mx ∧ mn ≤ lo + pyInt a1 := by
  rcases lt_or_ge a1 0 with hneg | hpos
  · have hp : pyInt a1 = ⌈a1⌉ := by unfold pyInt; rw [if_pos hneg]
    have hle : a1 ≤ (⌈a1⌉ : ℚ) := Int.le_ceil a1
    have hle0 : ⌈a1⌉ ≤ 0 := Int.ceil_le.mpr (by exact_mod_cast le_of_lt hneg)
    rw [hp]
    refine ⟨?_, by omega, ?_⟩
    · have h : (mn : ℚ) ≤ ((c + ⌈a1⌉ : ℤ) : ℚ) := by push_cast; linarith
      exact_mod_cast h
    · have h : (mn : ℚ) ≤ ((lo + ⌈a1⌉ : ℤ) : ℚ) := by push_cast; linarith
      exact_mod_cast h
  · have hp : pyInt a1 = ⌊a1⌋ := by unfold pyInt; rw [if_neg (not_lt.mpr hpos)]
    have hle : (⌊a1⌋ : ℚ) ≤ a1 := Int.floor_le a1
    have hge0 : 0 ≤ ⌊a1⌋ := Int.floor_nonneg.mpr hpos
    rw [hp]
    refine ⟨by omega, ?_, by omega⟩
    have h : ((c + ⌊a1⌋ : ℤ) : ℚ) ≤ (mx : ℚ) := by push_cast; linarith
    exact_mod_cast h

/-- Unpacking a clamp on an adjustable resource. -/
theorem applyClamp_some_elim (st : StructureDoc) (limits : LMap) (resource_label : String)
    (a1 amount : ℚ) (hne : resource_label ∉ NON_ADJUSTABLE_RESOURCES)
    (h : applyClamp st limits resource_label a1 = some amount) :
    ∃ rr lr, st.resources resource_label = some rr ∧ limits resource_label = some lr ∧
      adjust_amount a1 rr lr = some amount := by
  unfold applyClamp at h
  rw [if_neg hne] at h
  split at h
  · simp at h
  rename_i rr hrr
  split at h
  · simp at h
  rename_i lr hlr
  exact ⟨rr, lr, hrr, hlr, h⟩

/-- Field values of a built request for a non-energy resource. -/
theorem buildRequest_not_energy (now : ℤ) (st : StructureDoc) (label : String) (amount : ℚ)
    (he : label ≠ "energy") :
    (buildRequest now st label amount).resource = label ∧
    (buildRequest now st label amount).amount = pyInt amount ∧
    (buildRequest now st label amount).for_energy = false := by
  unfold buildRequest generate_request
  by_cases hc : st.subtype = "container" <;> simp [he, hc]

/-- A request built for the energy resource carries the for_energy mark. -/
theorem buildRequest_energy (now : ℤ) (st : StructureDoc) (amount : ℚ) :
    (buildRequest now st "energy" amount).for_energy = true := by
  unfold buildRequest generate_request
  by_cases hc : st.subtype = "container" <;> simp [hc]

/-- Any request present after one rule-body execution was already accumulated, or is
the energy-rewritten kind, or satisfies the clamped bounds of its resource. -/
theorem processRuleBody_mem_sound {π : Type} (now cpu_shares_per_watt : ℤ) (st : StructureDoc)
    (limits : LMap) (usages : String → Option ℚ) (ev : ReducedRec) (ru : Rule π)
    (acc : List Request × Tally)
    (H : ∀ res rr lr c, st.resources res = some rr → limits res = some lr →
      rr.current = some c → rr.min ≤ c ∧ c ≤ rr.max ∧ rr.min ≤ lr.lower ∧ lr.lower ≤ c) :
    ∀ req ∈ (processRuleBody now cpu_shares_per_watt st limits usages ev ru acc).1,
      req ∈ acc.1 ∨ req.for_energy = true ∨
      ∃ rr lr c, st.resources req.resource = some rr ∧ limits req.resource = some lr ∧
        rr.current = some c ∧ rr.min ≤ c + req.amount ∧ c + req.amount ≤ rr.max ∧
        rr.min ≤ lr.lower + req.amount := by
  intro req hreq
  simp only [processRuleBody] at hreq
  split at hreq
  · exact Or.inl hreq
  rename_i a0 hamt
  split at hreq
  · exact Or.inl hreq
  rename_i amount hclamp
  simp only [emitRequest] at hreq
  split at hreq
  · rcases List.mem_append.mp hreq with hin | hin
    · exact Or.inl hin
    have heqr := List.mem_singleton.mp hin
    subst heqr
    by_cases he : ru.resource = "energy"
    · right; left
      rw [he]
      exact buildRequest_energy now st amount
    · right; right
      obtain ⟨hres, hamt2, _⟩ := buildRequest_not_energy now st ru.resource amount he
      obtain ⟨rr, lr, hrr, hlr, hadj⟩ := applyClamp_some_elim st limits ru.resource
        (roundingGuard a0) amount (by simp [NON_ADJUSTABLE_RESOURCES, he]) hclamp
      obtain ⟨c, hcur, _⟩ := adjust_amount_some_elim (roundingGuard a0) rr lr amount hadj
      obtain ⟨hh1, hh2, hh3, hh4⟩ := H ru.resource rr lr c hrr hlr hcur
      obtain ⟨hb1, hb2, hb3⟩ :=
        adjust_amount_bounds (roundingGuard a0) rr lr c amount hcur hh3 hh4 hh2 hadj
      obtain ⟨hi1, hi2, hi3⟩ :=
        pyInt_clamp_bounds rr.min rr.max lr.lower c amount hh1 hh2 hh3 hb1 hb2 hb3
      refine ⟨rr, lr, c, ?_, ?_, hcur, ?_, ?_, ?_⟩
      · rw [hres]; exact hrr
      · rw [hres]; exact hlr
      · rw [hamt2]; exact hi1
      · rw [hamt2]; exact hi2
      · rw [hamt2]; exact hi3
  · exact Or.inl hreq

/-- Lifting the body soundness through the firing conditions of one rule iteration. -/
theorem processRule_mem_sound {π : Type} (jl : π → ReducedRec → Bool) (now cpu_shares_per_watt : ℤ)
    (st : StructureDoc) (limits : LMap) (usages : String → Option ℚ)
    (events : String → Option ReducedRec) (acc : List Request × Tally) (ru : Rule π)
    (H : ∀ res rr lr c, st.resources res = some rr → limits res = some lr →
      rr.current = some c → rr.min ≤ c ∧ c ≤ rr.max ∧ rr.min ≤ lr.lower ∧ lr.lower ≤ c) :
    ∀ req ∈ (processRule jl now cpu_shares_per_watt st limits usages events acc ru).1,
      req ∈ acc.1 ∨ req.for_energy = true ∨
      ∃ rr lr c, st.resources req.resource = some rr ∧ limits req.resource = some lr ∧
        rr.current = some c ∧ rr.min ≤ c + req.amount ∧ c + req.amount ≤ rr.max ∧
        rr.min ≤ lr.lower + req.amount := by
  intro req hreq
  simp only [processRule] at hreq
  split at hreq
  · split at hreq
    · exact Or.inl hreq
    rename_i ev hev
    split at hreq
    · split at hreq
      · split at hreq
        · exact Or.inl hreq
        rename_i rr hrr
        split at hreq
        · exact Or.inl hreq
        · exact processRuleBody_mem_sound now cpu_shares_per_watt st limits usages ev ru acc H req hreq
      · exact processRuleBody_mem_sound now cpu_shares_per_watt st limits usages ev ru acc H req hreq
    · exact Or.inl hreq
  · exact Or.inl hreq

/-- Folding the rule loop preserves request soundness. -/
theorem matchFold_sound {π : Type} (jl : π → ReducedRec → Bool) (now cpu_shares_per_watt : ℤ)
    (st : StructureDoc) (limits : LMap) (usages : String → Option ℚ)
    (events : String → Option ReducedRec)
    (H : ∀ res rr lr c, st.resources res = some rr → limits res = some lr →
      rr.current = some c → rr.min ≤ c ∧ c ≤ rr.max ∧ rr.min ≤ lr.lower ∧ lr.lower ≤ c) :
    ∀ (rules : List (Rule π)) (acc : List Request × Tally),
      (∀ req ∈ acc.1, req.for_energy = true ∨
        ∃ rr lr c, st.resources req.resource = some rr ∧ limits req.resource = some lr ∧
          rr.current = some c ∧ rr.min ≤ c + req.amount ∧ c + req.amount ≤ rr.max ∧
          rr.min ≤ lr.lower + req.amount) →
      ∀ req ∈ (rules.foldl (processRule jl now cpu_shares_per_watt st limits usages events) acc).1,
        req.for_energy = true ∨
        ∃ rr lr c, st.resources req.resource = some rr ∧ limits req.resource = some lr ∧
          rr.current = some c ∧ rr.min ≤ c + req.amount ∧ c + req.amount ≤ rr.max ∧
          rr.min ≤ lr.lower + req.amount := by
  intro rules
  induction rules with
  | nil => intro acc hacc req hreq; exact hacc req hreq
  | cons ru rus ih =>
    intro acc hacc req hreq
    simp only [List.foldl_cons] at hreq
    refine ih (processRule jl now cpu_shares_per_watt st limits usages events acc ru) ?_ req hreq
    intro req' hreq'
    rcases processRule_mem_sound jl now cpu_shares_per_watt st limits usages events acc ru H
      req' hreq' with h | h | h
    · exact hacc req' h
    · exact Or.inl h
    · exact Or.inr h

/-- C2 amended: for every request emitted by `match_rules_and_events` that did not
come from an energy rule (equivalently, carries no `for_energy` mark), provided the
structure's records satisfy `min ≤ current ≤ max` and — in addition to the claim's
`lower ≤ current` — the invariant `min ≤ lower`, the emitted amount satisfies
`min ≤ current + amount ≤ max` and `lower + amount ≥ min`. -/
theorem guardian_amount_clamping_amended {π : Type} :
    ∀ (jl : π → ReducedRec → Bool) (now cpu_shares_per_watt : ℤ) (st : StructureDoc)
      (rules : List (Rule π)) (events : String → Option ReducedRec) (limits : LMap)
      (usages : String → Option ℚ),
      (∀ res rr lr c, st.resources res = some rr → limits res = some lr →
        rr.current = some c → rr.min ≤ c ∧ c ≤ rr.max ∧ rr.min ≤ lr.lower ∧ lr.lower ≤ c) →
      ∀ req ∈ (match_rules_and_events jl now cpu_shares_per_watt st rules events limits usages).1,
        req.for_energy = false →
        ∃ rr lr c, st.resources req.resource = some rr ∧ limits req.resource = some lr ∧
          rr.current = some c ∧
          rr.min ≤ c + req.amount ∧ c + req.amount ≤ rr.max ∧
          rr.min ≤ lr.lower + req.amount := by
  intro jl now cpu_shares_per_watt st rules events limits usages H req hreq hfe
  unfold match_rules_and_events at hreq
  rcases matchFold_sound jl now cpu_shares_per_watt st limits usages events H rules
    ([], fun _ => none) (fun r hr => absurd hr (List.not_mem_nil r)) req hreq with h | h
  · rw [hfe] at h
    exact Bool.noConfusion h
  · exact h

/-- Constant-true predicate evaluator for the C2 counterexample. -/
def cexC2jl : Unit → ReducedRec → Bool := fun _ _ => true

/-- Structure of the C2 counterexample: a container whose cpu record is
min 50, max 100, current 100. -/
def cexC2st : StructureDoc :=
  { name := "node0"
    subtype := "container"
    host := "host0"
    host_rescaler_ip := "10.0.0.1"
    host_rescaler_port := "8000"
    resources := fun s => if s = "cpu" then some ⟨50, 100, some 100, none, true⟩ else none }

/-- Limits of the C2 counterexample: cpu lower is 10, below min 50 — the situation
the repairer explicitly tolerates. -/
def cexC2limits : LMap := fun s => if s = "cpu" then some ⟨10, 30, 20⟩ else none

/-- Reduced events feeding the C2 counterexample rule. -/
def cexC2events : String → Option ReducedRec := fun s => if s = "cpu" then some ⟨1, 0⟩ else none

/-- The C2 counterexample rule: a fixed-amount request rule asking for -100. -/
def cexC2rule : Rule Unit :=
  { name := "r"
    active := true
    resource := "cpu"
    generates := "requests"
    rule := ()
    rescale_by := some "amount"
    amount := some ((-100 : ℤ) : ℚ)
    events_to_remove := some 1 }

theorem cexC2_run :
    match_rules_and_events cexC2jl 0 5 cexC2st [cexC2rule] cexC2events cexC2limits
        (fun _ => none)
      = ([buildRequest 0 cexC2st "cpu" ((40 : ℤ) : ℚ)],
         consumeEvents ⟨1, 0⟩ cexC2rule "cpu" (fun _ => none)) := by
  have hres : cexC2rule.resource = "cpu" := rfl
  have hamt : computeAmountRaw 5 cexC2st cexC2limits (fun _ => none) cexC2rule
      = some ((-100 : ℤ) : ℚ) := rfl
  have hguard : roundingGuard ((-100 : ℤ) : ℚ) = ((-100 : ℤ) : ℚ) := by
    unfold roundingGuard
    rw [pyInt_intCast]
    norm_num
  have hclamp : applyClamp cexC2st cexC2limits "cpu" ((-100 : ℤ) : ℚ) = some ((40 : ℤ) : ℚ) := by
    have h0 : applyClamp cexC2st cexC2limits "cpu" ((-100 : ℤ) : ℚ)
        = adjust_amount ((-100 : ℤ) : ℚ) ⟨50, 100, some 100, none, true⟩ ⟨10, 30, 20⟩ := rfl
    rw [h0]
    unfold adjust_amount
    norm_num
  have h40 : ((40 : ℤ) : ℚ) ≠ 0 := by norm_num
  have hstep : match_rules_and_events cexC2jl 0 5 cexC2st [cexC2rule] cexC2events cexC2limits
      (fun _ => none)
      = processRuleBody 0 5 cexC2st cexC2limits (fun _ => none) ⟨1, 0⟩ cexC2rule
          ([], fun _ => none) := rfl
  rw [hstep]
  simp only [processRuleBody, hres, hamt, hguard, hclamp]
  simp only [emitRequest]
  rw [if_pos h40]
  rfl

/-- C2 counterexample.  The cpu record has min 50 ≤ current 100 ≤ max 100 and the
limits lower 10 ≤ current (all of the claim's hypotheses), the resource is not in
`NON_ADJUSTABLE_RESOURCES`, yet the emitted request's amount is 40 and
current + amount = 140 exceeds max = 100: when `lower + amount < min`, the clamp's
`elif` never re-checks the max bound. -/
theorem guardian_amount_clamping_counterexample :
    ∃ req,
      (match_rules_and_events cexC2jl 0 5 cexC2st [cexC2rule] cexC2events cexC2limits
          (fun _ => none)).1 = [req] ∧
      req.resource = "cpu" ∧ req.for_energy = false ∧ req.amount = 40 ∧
      ¬ ("cpu" ∈ NON_ADJUSTABLE_RESOURCES) ∧
      cexC2st.resources "cpu" = some ⟨50, 100, some 100, none, true⟩ ∧
      cexC2limits "cpu" = some ⟨10, 30, 20⟩ ∧
      (50 : ℤ) ≤ 100 ∧ (100 : ℤ) ≤ 100 ∧ (10 : ℤ) ≤ 100 ∧
      ¬ ((50 : ℤ) ≤ 100 + req.amount ∧ 100 + req.amount ≤ 100) := by
  refine ⟨buildRequest 0 cexC2st "cpu" ((40 : ℤ) : ℚ), ?_, ?_, ?_, ?_, ?_, rfl, rfl, ?_, ?_, ?_, ?_⟩
  · rw [cexC2_run]
  · exact (buildRequest_not_energy 0 cexC2st "cpu" ((40 : ℤ) : ℚ) (by decide)).1
  · exact (buildRequest_not_energy 0 cexC2st "cpu" ((40 : ℤ) : ℚ) (by decide)).2.2
  · rw [(buildRequest_not_energy 0 cexC2st "cpu" ((40 : ℤ) : ℚ) (by decide)).2.1, pyInt_intCast]
  · decide
  · decide
  · decide
  · decide
  · rw [(buildRequest_not_energy 0 cexC2st "cpu" ((40 : ℤ) : ℚ) (by decide)).2.1, pyInt_intCast]
    decide

/-- Constant-true predicate evaluator for the C2 witness. -/
def witC2jl : Unit → ReducedRec → Bool := fun _ _ => true

/-- Structure of the C2 witness: cpu with min 50, max 200, current 140 (scenario S1). -/
def witC2st : StructureDoc :=
  { name := "node0"
    subtype := "container"
    host := "host0"
    host_rescaler_ip := "10.0.0.1"
    host_rescaler_port := "8000"
    resources := fun s => if s = "cpu" then some ⟨50, 200, some 140, none, true⟩ else none }

/-- Limits of the C2 witness: cpu lower 80, within [min, current]. -/
def witC2limits : LMap := fun s => if s = "cpu" then some ⟨80, 120, 20⟩ else none

/-- Reduced events feeding the C2 witness rule. -/
def witC2events : String → Option ReducedRec := fun s => if s = "cpu" then some ⟨3, 0⟩ else none

/-- The C2 witness rule: a fixed-amount request rule asking for +100, clamped to 60. -/
def witC2rule : Rule Unit :=
  { name := "w"
    active := true
    resource := "cpu"
    generates := "requests"
    rule := ()
    rescale_by := some "amount"
    amount := some ((100 : ℤ) : ℚ)
    events_to_remove := some 2 }

theorem witC2_run :
    match_rules_and_events witC2jl 0 5 witC2st [witC2rule] witC2events witC2limits
        (fun _ => none)
      = ([buildRequest 0 witC2st "cpu" ((60 : ℤ) : ℚ)],
         consumeEvents ⟨3, 0⟩ witC2rule "cpu" (fun _ => none)) := by
  have hres : witC2rule.resource = "cpu" := rfl
  have hamt : computeAmountRaw 5 witC2st witC2limits (fun _ => none) witC2rule
      = some ((100 : ℤ) : ℚ) := rfl
  have hguard : roundingGuard ((100 : ℤ) : ℚ) = ((100 : ℤ) : ℚ) := by
    unfold roundingGuard
    rw [pyInt_intCast]
    norm_num
  have hclamp : applyClamp witC2st witC2limits "cpu" ((100 : ℤ) : ℚ) = some ((60 : ℤ) : ℚ) := by
    have h0 : applyClamp witC2st witC2limits "cpu" ((100 : ℤ) : ℚ)
        = adjust_amount ((100 : ℤ) : ℚ) ⟨50, 200, some 140, none, true⟩ ⟨80, 120, 20⟩ := rfl
    rw [h0]
    unfold adjust_amount
    norm_num
  have h60 : ((60 : ℤ) : ℚ) ≠ 0 := by norm_num
  have hstep : match_rules_and_events witC2jl 0 5 witC2st [witC2rule] witC2events witC2limits
      (fun _ => none)
      = processRuleBody 0 5 witC2st witC2limits (fun _ => none) ⟨3, 0⟩ witC2rule
          ([], fun _ => none) := rfl
  rw [hstep]
  simp only [processRuleBody, hres, hamt, hguard, hclamp]
  simp only [emitRequest]
  rw [if_pos h60]
  rfl

/-- C2 witness: on the concrete clamped run (amount 100 trimmed to 60), the emitted
request keeps the structure inside its range. -/
theorem guardian_amount_clamping_amended_witness :
    ∃ rr lr c,
      witC2st.resources (buildRequest 0 witC2st "cpu" ((60 : ℤ) : ℚ)).resource = some rr ∧
      witC2limits (buildRequest 0 witC2st "cpu" ((60 : ℤ) : ℚ)).resource = some lr ∧
      rr.current = some c ∧
      rr.min ≤ c + (buildRequest 0 witC2st "cpu" ((60 : ℤ) : ℚ)).amount ∧
      c + (buildRequest 0 witC2st "cpu" ((60 : ℤ) : ℚ)).amount ≤ rr.max ∧
      rr.min ≤ lr.lower + (buildRequest 0 witC2st "cpu" ((60 : ℤ) : ℚ)).amount := by
  refine guardian_amount_clamping_amended witC2jl 0 5 witC2st [witC2rule] witC2events witC2limits
    (fun _ => none) ?_ (buildRequest 0 witC2st "cpu" ((60 : ℤ) : ℚ)) ?_ ?_
  · intro res rr lr c hrr hlr hc
    by_cases hcpu : res = "cpu"
    · subst hcpu
      have h1 : rr = ⟨50, 200, some 140, none, true⟩ := by
        have := hrr
        simp only [witC2st] at this
        simpa using this.symm
      have h2 : lr = ⟨80, 120, 20⟩ := by
        have := hlr
        simp only [witC2limits] at this
        simpa using this.symm
      subst h1
      subst h2
      have h3 : c = 140 := by
        simpa using hc.symm
      subst h3
      refine ⟨by decide, by decide, by decide, by decide⟩
    · exfalso
      have : witC2st.resources res = none := by
        simp [witC2st, hcpu]
      rw [this] at hrr
      exact Option.noConfusion hrr
  · rw [witC2_run]
    exact List.mem_singleton.mpr rfl
  · exact (buildRequest_not_energy 0 witC2st "cpu" ((60 : ℤ) : ℚ) (by decide)).2.2

/-- C5: when a request rule fires but the amount after the rounding guard and the
clamp is 0, no request is appended, yet the rule's `events_to_remove` count is still
added to the events-to-remove tally under the triggering event name. -/
theorem guardian_zero_amount_consumes_events {π : Type} :
    ∀ (jl : π → ReducedRec → Bool) (now cpu_shares_per_watt : ℤ) (st : StructureDoc)
      (limits : LMap) (usages : String → Option ℚ) (events : String → Option ReducedRec)
      (acc : List Request × Tally) (ru : Rule π) (ev : ReducedRec) (nm : String) (k : ℤ),
      ru.active = true → ru.generates = "requests" →
      events ru.resource = some ev → jl ru.rule ev = true →
      (st.subtype = "container" →
        ∃ rr c, st.resources ru.resource = some rr ∧ rr.current = some c) →
      (∃ a0, computeAmountRaw cpu_shares_per_watt st limits usages ru = some a0 ∧
        applyClamp st limits ru.resource (roundingGuard a0) = some 0) →
      generate_event_name ev ru.resource = some nm →
      ru.events_to_remove = some k →
      processRule jl now cpu_shares_per_watt st limits usages events acc ru
        = (acc.1, updMap acc.2 nm (((acc.2 nm).getD 0) + k)) := by
  intro jl now cpu_shares_per_watt st limits usages events acc ru ev nm k
  intro hact hgen hev hjl hcont hzero hnm hk
  obtain ⟨a0, hamt, hclamp⟩ := hzero
  have hbody : processRuleBody now cpu_shares_per_watt st limits usages ev ru acc
      = (acc.1, updMap acc.2 nm (((acc.2 nm).getD 0) + k)) := by
    simp only [processRuleBody, hamt, hclamp]
    simp only [emitRequest]
    rw [if_neg (by norm_num : ¬ ((0 : ℚ) ≠ 0))]
    simp only [consumeEvents, hnm, hk]
  simp only [processRule, hev]
  rw [if_pos ⟨hact, hgen⟩, if_pos hjl]
  by_cases hsub : st.subtype = "container"
  · obtain ⟨rr, c, hrr, hc⟩ := hcont hsub
    rw [if_pos hsub]
    simp only [hrr, hc]
    exact hbody
  · rw [if_neg hsub]
    exact hbody

/-- Constant-true predicate evaluator for the C5 witness. -/
def witC5jl : Unit → ReducedRec → Bool := fun _ _ => true

/-- Structure of the C5 witness: current already at max (scenario S2). -/
def witC5st : StructureDoc :=
  { name := "node0"
    subtype := "container"
    host := "host0"
    host_rescaler_ip := "10.0.0.1"
    host_rescaler_port := "8000"
    resources := fun s => if s = "cpu" then some ⟨0, 200, some 200, none, true⟩ else none }

/-- Limits of the C5 witness. -/
def witC5limits : LMap := fun s => if s = "cpu" then some ⟨50, 180, 20⟩ else none

/-- Reduced events feeding the C5 witness rule: 3 scale-up events, no scale-down. -/
def witC5events : String → Option ReducedRec := fun s => if s = "cpu" then some ⟨3, 0⟩ else none

/-- The C5 witness rule: amount +50 is clamped to 0 because current = max. -/
def witC5rule : Rule Unit :=
  { name := "w5"
    active := true
    resource := "cpu"
    generates := "requests"
    rule := ()
    rescale_by := some "amount"
    amount := some ((50 : ℤ) : ℚ)
    events_to_remove := some 2 }

/-- C5 witness: the concrete clamp-to-zero run appends no request but tallies 2
events to remove under the triggering event name. -/
theorem guardian_zero_amount_consumes_events_witness :
    processRule witC5jl 0 5 witC5st witC5limits (fun _ => none) witC5events
        ([], fun _ => none) witC5rule
      = (([] : List Request), updMap (fun _ => none) "cpu_scale_up" 2) := by
  have h := guardian_zero_amount_consumes_events witC5jl 0 5 witC5st witC5limits
    (fun _ => none) witC5events ([], fun _ => none) witC5rule ⟨3, 0⟩ "cpu_scale_up" 2
    rfl rfl rfl rfl
    (fun _ => ⟨⟨0, 200, some 200, none, true⟩, 200, rfl, rfl⟩)
    ⟨((50 : ℤ) : ℚ), rfl, ?_⟩ rfl rfl
  · simpa using h
  · have hguard : roundingGuard ((50 : ℤ) : ℚ) = ((50 : ℤ) : ℚ) := by
      unfold roundingGuard
      rw [pyInt_intCast]
      norm_num
    rw [hguard]
    have h0 : applyClamp witC5st witC5limits "cpu" ((50 : ℤ) : ℚ)
        = adjust_amount ((50 : ℤ) : ℚ) ⟨0, 200, some 200, none, true⟩ ⟨50, 180, 20⟩ := rfl
    show applyClamp witC5st witC5limits witC5rule.resource ((50 : ℤ) : ℚ) = some 0
    rw [show witC5rule.resource = "cpu" from rfl, h0]
    unfold adjust_amount
    norm_num
